import Mathlib

/-
Verification of the entity-normalization layer of the Docai repository.

The JavaScript sources embedded here are:
  * src/server.js            (normalizeEntities, bestEntity, entityValue, field,
                              extractLineItems, extractMeterNumberFromText, buildInvoice)
  * src/unnamed/part_000     (nvText, entityValue, bestEntity, pick, flattenEntities,
                              getFromGroupOrFlat, getRepeatedGroupItems)
  * src/unnamed/part_001     (normalizeText, firstMatch, cleanSpaces, cleanCurrency,
                              toIsoDate, bestEntity, entityText, extractCurrency,
                              extractLineItems)

Machine numbers: confidences are IEEE doubles in [0,1] in the source; they are
modelled as rationals, which is exact for every comparison the code performs.
JavaScript strings are modelled as Lean strings processed as character lists,
so that every string operation used by the code (trim, toLowerCase, replace,
split, regex scans) is given an explicit, executable definition matching the
JavaScript semantics on the character sets the code manipulates.
-/

namespace Docai

/-- Shape of a JavaScript `normalizedValue`: a string, an object, or any other
JavaScript value (number, boolean, array, ...).  For an object, `text = some s`
records that its `text` property holds the string `s`; `text = none` covers an
absent or non-string `text` property — no embedded code path distinguishes
those two, both fail the `typeof v.text === "string"` test. -/
inductive NormVal where
  | nstr (s : String)
  | nobj (text : Option String)
  | nother
deriving DecidableEq

/-- Truthiness of a `NormVal` under JavaScript coercion.  `nother` is declared
truthy; the only falsy non-string non-object values (0, false, NaN) take
exactly the same branch as a truthy `nother` in every embedded function (they
fail both the string test and the `.text` test), so this choice is
observationally irrelevant. -/
def NormVal.truthy : NormVal → Bool
  | .nstr s => s ≠ ""
  | .nobj _ => true
  | .nother => true

/-- The string held by `v.text` when it is a string (`typeof v.text === "string"`),
else none. -/
def NormVal.textStr : NormVal → Option String
  | .nobj (some s) => some s
  | _ => none

/-- An entity as produced by the document extractor: `type`, `mentionText`,
`normalizedValue`, `confidence` and nested `properties`.  `none` models a
JavaScript null/undefined field. -/
inductive Entity where
  | mk (type mentionText : Option String) (normalizedValue : Option NormVal)
      (confidence : Option ℚ) (properties : List Entity)

def Entity.type : Entity → Option String
  | .mk t _ _ _ _ => t

def Entity.mentionText : Entity → Option String
  | .mk _ m _ _ _ => m

def Entity.normalizedValue : Entity → Option NormVal
  | .mk _ _ nv _ _ => nv

def Entity.confidence : Entity → Option ℚ
  | .mk _ _ _ c _ => c

def Entity.properties : Entity → List Entity
  | .mk _ _ _ _ ps => ps

/-- JavaScript truthiness of a nullable string (`null`, `undefined` and `""`
are falsy). -/
def strTruthy : Option String → Bool
  | none => false
  | some s => s ≠ ""

/-- JavaScript `a || b` on nullable strings. -/
def jsOrS (a b : Option String) : Option String :=
  if strTruthy a then a else b

/-- The ranking key `e.confidence ?? 0` used by every sort comparator in the
sources: a missing confidence counts as 0 for ranking only. -/
def confOr0 (e : Entity) : ℚ :=
  (e.confidence).getD 0

/-- Ordering relation realised by a comparator of the shape
`(a, b) => key(b) - key(a)`: `a` may precede `b` iff `b`'s ranking key does
not exceed `a`'s (descending order). -/
def keyGE {α : Type} (key : α → ℚ) (a b : α) : Prop :=
  key b ≤ key a

instance {α : Type} (key : α → ℚ) : DecidableRel (keyGE key) := fun a b => by
  unfold keyGE; infer_instance

instance {α : Type} (key : α → ℚ) : IsTotal α (keyGE key) :=
  ⟨fun a b => le_total (key b) (key a)⟩

instance {α : Type} (key : α → ℚ) : IsTrans α (keyGE key) :=
  ⟨fun _ _ _ hab hbc => le_trans hbc hab⟩

/-- The head of a list sorted descending by `key` is null iff the list is
empty, and otherwise is an element of the list whose key dominates every
element's key. -/
theorem insertionSort_head_spec {α : Type} (key : α → ℚ) (l : List α) :
    ((l.insertionSort (keyGE key)).head? = none ↔ l = []) ∧
    ∀ b, (l.insertionSort (keyGE key)).head? = some b →
      b ∈ l ∧ ∀ x ∈ l, key x ≤ key b := by
  have hperm := List.perm_insertionSort (keyGE key) l
  constructor
  · rw [List.head?_eq_none_iff]
    constructor
    · intro hnil
      rw [hnil] at hperm
      exact hperm.symm.eq_nil
    · intro hnil
      rw [hnil]
      rfl
  · intro b hb
    have hbs : b ∈ l.insertionSort (keyGE key) := List.mem_of_mem_head? hb
    refine ⟨hperm.mem_iff.mp hbs, ?_⟩
    intro x hx
    have hxs : x ∈ l.insertionSort (keyGE key) := hperm.mem_iff.mpr hx
    have hsorted := List.sorted_insertionSort (keyGE key) l
    cases hlist : l.insertionSort (keyGE key) with
    | nil => rw [hlist] at hxs; simp at hxs
    | cons y ys =>
      rw [hlist] at hxs hsorted hb
      have hyb : y = b := by simpa using hb
      rcases List.mem_cons.mp hxs with rfl | hxys
      · rw [hyb]
      · have hle := (List.pairwise_cons.mp hsorted).1 x hxys
        rw [hyb] at hle
        exact hle

/-- Embedding of `bestEntity` (identical in src/server.js:69-74,
src/unnamed/part_000:44-49 and src/unnamed/part_001:89-95): filter the list by
type (the `hits` array), sort descending by `confidence ?? 0`, return the
first element or null.  `Array.prototype.sort` with a numeric comparator is
(ES2019) a stable sort; any stable sort of the same list under the same total
preorder yields the same list, so it is modelled by Mathlib's stable
`insertionSort`. -/
def bestEntity (entities : List Entity) (t : String) : Option Entity :=
  ((entities.filter fun e => decide (e.type = some t)).insertionSort
    (keyGE confOr0)).head?

/-- C1: `bestEntity(entities, type)` returns null exactly when no entity in the
list has the requested type; otherwise it returns an entity of the requested
type, drawn from the list, whose ranking key `confidence ?? 0` is greater than
or equal to that of every other entity of that type in the list. -/
theorem C1_bestEntity (entities : List Entity) (t : String) :
    (bestEntity entities t = none ↔ ∀ e ∈ entities, e.type ≠ some t) ∧
    ∀ b, bestEntity entities t = some b →
      b.type = some t ∧ b ∈ entities ∧
      ∀ e ∈ entities, e.type = some t → confOr0 e ≤ confOr0 b := by
  have hspec := insertionSort_head_spec confOr0
    (entities.filter fun e => decide (e.type = some t))
  constructor
  · unfold bestEntity
    rw [hspec.1, List.filter_eq_nil_iff]
    constructor
    · intro hall e he het
      have := hall e he
      simp [het] at this
    · intro hall e he
      simp [hall e he]
  · intro b hb
    obtain ⟨hbf, hmax⟩ := hspec.2 b hb
    obtain ⟨hbe, hbt⟩ := List.mem_filter.mp hbf
    refine ⟨by simpa using hbt, hbe, ?_⟩
    intro e he het
    exact hmax e (List.mem_filter.mpr ⟨he, by simp [het]⟩)

/-- Demo entity of type "a" with confidence 1. -/
def entA : Entity := .mk (some "a") none none (some 1) []

/-- Demo entity of type "a" with confidence 3. -/
def entB : Entity := .mk (some "a") none none (some 3) []

/-- Concrete instantiation of C1: no entity of type "z" exists in the demo
list, so `bestEntity` is null there; and the winner for type "a" has the
requested type and dominates the other match. -/
theorem C1_bestEntity_witness :
    bestEntity [entA, entB] "z" = none ∧
    entB.type = some "a" ∧ confOr0 entA ≤ confOr0 entB := by
  have h2 := (C1_bestEntity [entA, entB] "a").2 entB (by rfl)
  exact ⟨(C1_bestEntity [entA, entB] "z").1.mpr (by decide),
    h2.1, h2.2.2 entA (List.mem_cons_self _ _) rfl⟩

/-- Embedding of `entityValue` (src/server.js:76-86): if `normalizedValue` is
truthy, a string value is returned directly and an object's string `text`
property is returned; otherwise `mentionText ?? null`. -/
def entityValue (e : Option Entity) : Option String :=
  match e with
  | none => none
  | some e =>
    match e.normalizedValue with
    | some nv =>
      if nv.truthy then
        match nv with
        | .nstr s => some s
        | _ =>
          match nv.textStr with
          | some s => some s
          | none => e.mentionText
      else e.mentionText
    | none => e.mentionText

/-- C2 counterexample: the claim says a present string `normalizedValue`
always wins over `mentionText`, but the code guards the whole normalized-value
block with JavaScript truthiness (`if (e.normalizedValue)`), so the empty
string — a string — is skipped and `mentionText` is returned instead. -/
theorem C2_entityValue_counterexample :
    (Entity.mk none (some "x") (some (NormVal.nstr "")) none []).normalizedValue
        = some (NormVal.nstr "") ∧
    entityValue (some (Entity.mk none (some "x") (some (NormVal.nstr "")) none []))
        = some "x" ∧
    some "x" ≠ some ("" : String) :=
  ⟨rfl, rfl, by decide⟩

/-- C2 (amended): `entityValue` resolves in this fixed order: a present
non-empty string `normalizedValue` is returned; else an object
`normalizedValue` whose `text` property is a string yields that text; in every
other case (`normalizedValue` null, the empty string, an object without a
string `text`, or any other value) `mentionText` is returned, hence null when
`mentionText` is also absent; and a null entity yields null. -/
theorem C2_entityValue_amended (e : Entity) :
    entityValue none = none ∧
    (∀ s, e.normalizedValue = some (NormVal.nstr s) → s ≠ "" →
      entityValue (some e) = some s) ∧
    (∀ s, e.normalizedValue = some (NormVal.nobj (some s)) →
      entityValue (some e) = some s) ∧
    ((e.normalizedValue = none ∨ e.normalizedValue = some (NormVal.nstr "") ∨
      e.normalizedValue = some (NormVal.nobj none) ∨
      e.normalizedValue = some NormVal.nother) →
      entityValue (some e) = e.mentionText) := by
  refine ⟨rfl, ?_, ?_, ?_⟩
  · intro s hnv hs
    simp [entityValue, hnv, NormVal.truthy, hs]
  · intro s hnv
    simp [entityValue, hnv, NormVal.truthy, NormVal.textStr]
  · rintro (hnv | hnv | hnv | hnv) <;>
      simp [entityValue, hnv, NormVal.truthy, NormVal.textStr]

/-- Concrete instantiation of the amended C2: a non-empty string
`normalizedValue` "v" beats `mentionText` "m". -/
theorem C2_entityValue_amended_witness :
    entityValue (some (Entity.mk none (some "m") (some (NormVal.nstr "v")) none []))
      = some "v" :=
  (C2_entityValue_amended
    (Entity.mk none (some "m") (some (NormVal.nstr "v")) none [])).2.1
    "v" rfl (by decide)

/-- Embedding of `nvText` (src/unnamed/part_000:32-37): null for a falsy
value, a string is returned as is, an object's string `text` property is
returned, anything else gives null. -/
def nvText : Option NormVal → Option String
  | none => none
  | some nv =>
    if nv.truthy then
      match nv with
      | .nstr s => some s
      | _ =>
        match nv.textStr with
        | some s => some s
        | none => none
    else none

/-- Embedding of `entityValue` from src/unnamed/part_000:39-42:
`nvText(e.normalizedValue) || e.mentionText || null`.  Named `entityValueV0`
because the file also embeds the server.js function of the same name. -/
def entityValueV0 (e : Option Entity) : Option String :=
  match e with
  | none => none
  | some e => jsOrS (jsOrS (nvText e.normalizedValue) e.mentionText) none

/-- A resolved field: `{ value, confidence }`. -/
structure ResolvedField where
  value : Option String
  confidence : Option ℚ
deriving DecidableEq

/-- Embedding of `pick` (src/unnamed/part_000:51-57). -/
def pick (list : List Entity) (t : String) : ResolvedField :=
  { value := entityValueV0 (bestEntity list t)
    confidence :=
      match bestEntity list t with
      | some e => e.confidence
      | none => none }

/-- Flattened view of one entity, as produced by `flattenEntities`
(src/unnamed/part_000:60-76).  The `_ref` back-pointer of the source is
dropped: no embedded code path reads it. -/
structure FlatEntity where
  type : String
  mentionText : Option String
  normalizedText : Option String
  confidence : Option ℚ
deriving DecidableEq

/-- JavaScript `e.type || "unknown"`. -/
def jsTypeOr (t : Option String) : String :=
  match t with
  | some s => if s = "" then "unknown" else s
  | none => "unknown"

/-- Embedding of `flattenEntities` (src/unnamed/part_000:60-76): depth-first,
parent before children, child types prefixed with the parent's dotted path. -/
def flattenEntities : List Entity → String → List FlatEntity
  | [], _ => []
  | .mk t m nv c ps :: rest, pre =>
    (⟨if pre = "" then jsTypeOr t else pre ++ "." ++ jsTypeOr t,
        jsOrS m none, nvText nv, c⟩ : FlatEntity) ::
      ((if ps.isEmpty then []
        else flattenEntities ps
          (if pre = "" then jsTypeOr t else pre ++ "." ++ jsTypeOr t)) ++
        flattenEntities rest pre)

/-- The ranking key of a flattened entity. -/
def flatConfOr0 (x : FlatEntity) : ℚ :=
  x.confidence.getD 0

/-- The flattened-fallback selection inside `getFromGroupOrFlat`
(src/unnamed/part_000:88-91): among flattened entities whose dotted type is
exactly `groupType.fieldType`, the highest-confidence one. -/
def flatHit (entities : List Entity) (groupType fieldType : String) :
    Option FlatEntity :=
  (((flattenEntities entities "").filter fun x =>
      decide (x.type = groupType ++ "." ++ fieldType)).insertionSort
    (keyGE flatConfOr0)).head?

/-- The value the flattened fallback returns
(src/unnamed/part_000:92): `hit ? (hit.normalizedText || hit.mentionText) : null`. -/
def flatLookup (entities : List Entity) (groupType fieldType : String) :
    Option String :=
  match flatHit entities groupType fieldType with
  | some hit => jsOrS hit.normalizedText hit.mentionText
  | none => none

/-- JavaScript whitespace class `\s` (ASCII whitespace, NBSP, and the Unicode
space separators recognised by ECMAScript). -/
def isJsWs (c : Char) : Bool :=
  c = ' ' || c = '\t' || c = '\n' || c = '\r' || c = '\x0b' || c = '\x0c' ||
  c = '\u00A0' || c = '\u1680' || ('\u2000' ≤ c && c ≤ '\u200A') ||
  c = '\u2028' || c = '\u2029' || c = '\u202F' || c = '\u205F' ||
  c = '\u3000' || c = '\uFEFF'

/-- JavaScript `String.prototype.trim`. -/
def trimJS (s : String) : String :=
  ⟨((s.data.dropWhile isJsWs).reverse.dropWhile isJsWs).reverse⟩

/-- Embedding of `getFromGroupOrFlat` (src/unnamed/part_000:81-93): prefer the
field resolved among the best group entity's own properties when it is
non-empty after trimming, otherwise fall back to the flattened dotted-path
lookup. -/
def getFromGroupOrFlat (entities : List Entity) (groupType fieldType : String) :
    Option String :=
  match bestEntity entities groupType with
  | some group =>
    match (pick group.properties fieldType).value with
    | some v =>
      if trimJS v ≠ "" then some v
      else flatLookup entities groupType fieldType
    | none => flatLookup entities groupType fieldType
  | none => flatLookup entities groupType fieldType

/-- C3: `getFromGroupOrFlat` returns the grouped-property value whenever the
best group entity exists and the field resolves non-empty after trimming among
its direct properties; the flattened dotted-path lookup is consulted exactly
when the group is absent or the grouped value is null/empty/whitespace; and
the flattened lookup itself selects, among flattened entities whose dotted
type equals exactly `groupType.fieldType`, one with the highest confidence. -/
theorem C3_getFromGroupOrFlat (entities : List Entity) (g f : String) :
    (∀ group v, bestEntity entities g = some group →
      (pick group.properties f).value = some v → trimJS v ≠ "" →
      getFromGroupOrFlat entities g f = some v) ∧
    (bestEntity entities g = none →
      getFromGroupOrFlat entities g f = flatLookup entities g f) ∧
    (∀ group, bestEntity entities g = some group →
      ((pick group.properties f).value = none ∨
        ∃ v, (pick group.properties f).value = some v ∧ trimJS v = "") →
      getFromGroupOrFlat entities g f = flatLookup entities g f) ∧
    (∀ hit, flatHit entities g f = some hit →
      hit.type = g ++ "." ++ f ∧ hit ∈ flattenEntities entities "" ∧
      ∀ y ∈ flattenEntities entities "", y.type = g ++ "." ++ f →
        flatConfOr0 y ≤ flatConfOr0 hit) := by
  refine ⟨?_, ?_, ?_, ?_⟩
  · intro group v hg hv htrim
    simp [getFromGroupOrFlat, hg, hv, htrim]
  · intro hg
    simp [getFromGroupOrFlat, hg]
  · intro group hg hcase
    rcases hcase with hnone | ⟨v, hv, htrim⟩
    · simp [getFromGroupOrFlat, hg, hnone]
    · simp [getFromGroupOrFlat, hg, hv, htrim]
  · intro hit hhit
    unfold flatHit at hhit
    have hspec := insertionSort_head_spec flatConfOr0
      ((flattenEntities entities "").filter fun x =>
        decide (x.type = g ++ "." ++ f))
    obtain ⟨hmem, hmax⟩ := hspec.2 hit hhit
    obtain ⟨hmem', htype⟩ := List.mem_filter.mp hmem
    exact ⟨by simpa using htype, hmem',
      fun y hy hyt => hmax y (List.mem_filter.mpr ⟨hy, by simp [hyt]⟩)⟩

/-- Demo group entity of type "G" with one property "p" valued "hello". -/
def grpEnt : Entity :=
  .mk (some "G") none none (some 1) [.mk (some "p") (some "hello") none (some 1) []]

/-- Concrete instantiation of C3: with the group present and the grouped
property non-empty, the grouped value "hello" is returned. -/
theorem C3_getFromGroupOrFlat_witness :
    getFromGroupOrFlat [grpEnt] "G" "p" = some "hello" :=
  (C3_getFromGroupOrFlat [grpEnt] "G" "p").1 grpEnt "hello" rfl rfl (by decide)

/-- Embedding of `getRepeatedGroupItems` (src/unnamed/part_000:96-109): one
output record per top-level entity of the group type, each record resolving
every schema field against that group's own properties via `pick`.  A
JavaScript record is modelled as the ordered list of its field/value pairs. -/
def getRepeatedGroupItems (entities : List Entity) (groupType : String)
    (schemaFields : List String) : List (List (String × Option String)) :=
  let groups := entities.filter fun e => decide (e.type = some groupType)
  if groups.isEmpty then []
  else groups.map fun grp =>
    schemaFields.map fun f => (f, (pick grp.properties f).value)

/-- C4: `getRepeatedGroupItems` returns exactly one record per top-level
entity whose type equals the group type, in the original order of the input
list (the order-preserving filter of the input), and the empty collection —
by type never null — when no entity of that type exists. -/
theorem C4_getRepeatedGroupItems (entities : List Entity) (g : String)
    (fs : List String) :
    getRepeatedGroupItems entities g fs =
      (entities.filter fun e => decide (e.type = some g)).map
        (fun e => fs.map fun f => (f, (pick e.properties f).value)) ∧
    (getRepeatedGroupItems entities g fs).length =
      (entities.filter fun e => decide (e.type = some g)).length ∧
    ((∀ e ∈ entities, e.type ≠ some g) →
      getRepeatedGroupItems entities g fs = []) := by
  have h1 : getRepeatedGroupItems entities g fs =
      (entities.filter fun e => decide (e.type = some g)).map
        (fun e => fs.map fun f => (f, (pick e.properties f).value)) := by
    unfold getRepeatedGroupItems
    by_cases h : (entities.filter fun e => decide (e.type = some g)).isEmpty
    · rw [List.isEmpty_iff] at h
      simp [h]
    · simp [h]
  refine ⟨h1, by rw [h1]; simp, ?_⟩
  intro hall
  rw [h1]
  have hfil : (entities.filter fun e => decide (e.type = some g)) = [] := by
    rw [List.filter_eq_nil_iff]
    intro e he
    simp [hall e he]
  rw [hfil]
  rfl

/-- Concrete instantiation of C4: no entity of type "z" exists, so the result
is the empty collection. -/
theorem C4_getRepeatedGroupItems_witness :
    getRepeatedGroupItems [entA, entB] "z" ["f"] = [] :=
  (C4_getRepeatedGroupItems [entA, entB] "z" ["f"]).2.2 (by decide)

/-- Reason attached to a review flag: `"missing"`, or `"low_confidence"`
carrying the confidence. -/
inductive ReviewReason where
  | missing
  | lowConfidence (confidence : ℚ)
deriving DecidableEq

/-- A review flag `{ field, reason }`. -/
structure ReviewFlag where
  field : String
  reason : ReviewReason
deriving DecidableEq

/-- Loop body of the needs-review derivation in `buildInvoice`
(src/server.js:177-182): a falsy resolved value pushes a missing flag, else a
numeric confidence strictly below 0.6 pushes a low-confidence flag.  The
invoice record is modelled as a map from field name to an optional resolved
field; `invoice[k]?.value` and `invoice[k]?.confidence` become `Option.bind`. -/
def reviewStep (invoice : String → Option ResolvedField)
    (acc : List ReviewFlag) (k : String) : List ReviewFlag :=
  if strTruthy ((invoice k).bind fun fld => fld.value) = false then
    acc ++ [⟨k, ReviewReason.missing⟩]
  else
    match (invoice k).bind fun fld => fld.confidence with
    | some q =>
      if q < 0.6 then acc ++ [⟨k, ReviewReason.lowConfidence q⟩] else acc
    | none => acc

/-- Embedding of the needs-review loop of `buildInvoice`
(src/server.js:174-184), parametric in the mandatory-field list
(server.js instantiates it with
`["invoice_id", "invoice_date", "total_amount", "supplier_name"]`). -/
def needsReview (invoice : String → Option ResolvedField)
    (mustHave : List String) : List ReviewFlag :=
  mustHave.foldl (reviewStep invoice) []

/-- The flag a single mandatory field contributes, if any: exactly the
per-field rule C6 states. -/
def flagFor (invoice : String → Option ResolvedField) (k : String) :
    Option ReviewFlag :=
  if strTruthy ((invoice k).bind fun fld => fld.value) = false then
    some ⟨k, ReviewReason.missing⟩
  else
    match (invoice k).bind fun fld => fld.confidence with
    | some q =>
      if q < 0.6 then some ⟨k, ReviewReason.lowConfidence q⟩ else none
    | none => none

theorem reviewStep_eq (invoice : String → Option ResolvedField)
    (acc : List ReviewFlag) (k : String) :
    reviewStep invoice acc k = acc ++ (flagFor invoice k).toList := by
  unfold reviewStep flagFor
  by_cases hv : strTruthy ((invoice k).bind fun fld => fld.value) = false
  · simp [hv]
  · cases hc : (invoice k).bind fun fld => fld.confidence with
    | none => simp [hv, hc]
    | some q =>
      by_cases hq : q < 0.6
      · simp [hv, hc, hq]
      · simp [hv, hc, hq]

theorem needsReview_eq_filterMap (invoice : String → Option ResolvedField)
    (mustHave : List String) :
    needsReview invoice mustHave = mustHave.filterMap (flagFor invoice) := by
  unfold needsReview
  suffices h : ∀ (fs : List String) (acc : List ReviewFlag),
      fs.foldl (reviewStep invoice) acc =
        acc ++ fs.filterMap (flagFor invoice) by
    simpa using h mustHave []
  intro fs
  induction fs with
  | nil => intro acc; simp
  | cons k fs ih =>
    intro acc
    rw [List.foldl_cons, ih, reviewStep_eq, List.filterMap_cons]
    cases flagFor invoice k <;> simp

/-- The claim C6's concrete scenario: `invoice_id` resolves to null,
`total_amount` to value "100" with confidence 0.4, and `supplier_name` (not in
the scenario's mandatory list) has a present value with unknown confidence. -/
def demoInvoice : String → Option ResolvedField := fun k =>
  if k = "invoice_id" then none
  else if k = "total_amount" then some ⟨some "100", some 0.4⟩
  else if k = "supplier_name" then some ⟨some "ACME", none⟩
  else none

/-- C6: the emitted review flags are exactly, in mandatory-list order, a
missing flag for each field whose resolved value is null/empty, else a
low-confidence flag (carrying the confidence) for each field whose confidence
is a number strictly below 0.6; a field with a present value and unknown
confidence contributes no flag; and the claim's concrete scenario yields
exactly the missing flag for `invoice_id` followed by the 0.4 low-confidence
flag for `total_amount`. -/
theorem C6_needsReview (invoice : String → Option ResolvedField)
    (mustHave : List String) :
    needsReview invoice mustHave = mustHave.filterMap (flagFor invoice) ∧
    (∀ k, strTruthy ((invoice k).bind fun fld => fld.value) = true →
      (invoice k).bind (fun fld => fld.confidence) = none →
      flagFor invoice k = none) ∧
    needsReview demoInvoice ["invoice_id", "total_amount"] =
      [⟨"invoice_id", ReviewReason.missing⟩,
        ⟨"total_amount", ReviewReason.lowConfidence 0.4⟩] := by
  refine ⟨needsReview_eq_filterMap invoice mustHave, ?_, ?_⟩
  · intro k hv hc
    simp [flagFor, hv, hc]
  · have h04 : (0.4 : ℚ) < 0.6 := by norm_num
    simp [needsReview, List.foldl_cons, reviewStep, demoInvoice, strTruthy, h04]

/-- Concrete instantiation of C6's hypotheses: `supplier_name` has a present
value and unknown confidence in the demo record, so it is never flagged. -/
theorem C6_needsReview_witness :
    flagFor demoInvoice "supplier_name" = none :=
  (C6_needsReview demoInvoice []).2.1 "supplier_name" (by decide) rfl

/-- A JavaScript value, as needed to model the raw `document` input of
`normalizeEntities`: null, undefined, booleans, numbers, strings, arrays and
plain objects (ordered key/value lists, keys unique). -/
inductive JsVal where
  | vnull
  | vundefined
  | vbool (b : Bool)
  | vnum (q : ℚ)
  | vstr (s : String)
  | varr (elems : List JsVal)
  | vobj (fields : List (String × JsVal))

/-- Null or undefined: property access on such a value throws a TypeError. -/
def JsVal.nullish : JsVal → Bool
  | .vnull => true
  | .vundefined => true
  | _ => false

def jsObjGet : List (String × JsVal) → String → JsVal
  | [], _ => .vundefined
  | (k', v) :: rest, k => if k' = k then v else jsObjGet rest k

/-- Property access on a non-nullish value.  Strings and arrays do carry
built-in properties, but none named `entities`, `type`, `mentionText`,
`normalizedValue`, `confidence` or `properties` — the only names the embedded
code reads — so those lookups yield undefined. -/
def jsGet : JsVal → String → JsVal
  | .vobj fields, k => jsObjGet fields k
  | _, _ => .vundefined

/-- JavaScript truthiness.  NaN (falsy) has no rational representative; no
claim depends on a NaN confidence. -/
def JsVal.truthy : JsVal → Bool
  | .vnull => false
  | .vundefined => false
  | .vbool b => b
  | .vnum q => q ≠ 0
  | .vstr s => s ≠ ""
  | .varr _ => true
  | .vobj _ => true

/-- JavaScript `a || b` on arbitrary values. -/
def jsOrV (a b : JsVal) : JsVal :=
  if a.truthy then a else b

/-- The test `typeof v === "number"`. -/
def JsVal.isNum : JsVal → Bool
  | .vnum _ => true
  | _ => false

/-- The test `Array.isArray(v)`, returning the elements on success. -/
def JsVal.asArr : JsVal → Option (List JsVal)
  | .varr xs => some xs
  | _ => none

/-- `Array.prototype.map` with a callback that can throw: applied in order,
the first exception propagates. -/
def mapME {α β : Type} (f : α → Except Unit β) : List α → Except Unit (List β)
  | [] => .ok []
  | x :: xs =>
    match f x with
    | .error err => .error err
    | .ok y =>
      match mapME f xs with
      | .error err => .error err
      | .ok ys => .ok (y :: ys)

/-- The object literal both mapping callbacks of `normalizeEntities`
(src/server.js:51-64) build: `type`/`mentionText`/`normalizedValue` defaulted
to null when falsy, `confidence` kept only when a number (else null), plus the
given `properties` value. -/
def normEntityObj (e : JsVal) (props : JsVal) : JsVal :=
  .vobj [("type", jsOrV (jsGet e "type") .vnull),
    ("mentionText", jsOrV (jsGet e "mentionText") .vnull),
    ("normalizedValue", jsOrV (jsGet e "normalizedValue") .vnull),
    ("confidence",
      if (jsGet e "confidence").isNum then jsGet e "confidence" else .vnull),
    ("properties", props)]

/-- Inner callback of `normalizeEntities` (src/server.js:58-64): a nullish
array element makes every property access throw; otherwise all accesses
succeed and nested `properties` is kept raw when an array, else `[]`. -/
def normProp (p : JsVal) : Except Unit JsVal :=
  if p.nullish then .error ()
  else
    .ok (normEntityObj p
      (if (jsGet p "properties").asArr.isSome then jsGet p "properties"
        else .varr []))

/-- Outer callback of `normalizeEntities` (src/server.js:51-65). -/
def normEntity (e : JsVal) : Except Unit JsVal :=
  if e.nullish then .error ()
  else
    match (jsGet e "properties").asArr with
    | some ps => (mapME normProp ps).map fun qs => normEntityObj e (.varr qs)
    | none => .ok (normEntityObj e (.varr []))

/-- The optional chain `doc?.entities` (src/server.js:50). -/
def entitiesVal (doc : JsVal) : JsVal :=
  if doc.nullish then .vundefined else jsGet doc "entities"

/-- Embedding of `normalizeEntities` (src/server.js:48-67), with `.error ()`
modelling a thrown TypeError. -/
def normalizeEntities (doc : JsVal) : Except Unit (List JsVal) :=
  match (entitiesVal doc).asArr with
  | some ents => mapME normEntity ents
  | none => .ok []

/-- An entities-array element on which the mapping callback cannot throw:
non-nullish, and every element of its `properties` array (when it is an
array) non-nullish in turn. -/
def safeEntity (e : JsVal) : Bool :=
  !e.nullish && ((jsGet e "properties").asArr.getD []).all fun p => !p.nullish

/-- A document on which `normalizeEntities` cannot throw. -/
def safeDoc (doc : JsVal) : Bool :=
  ((entitiesVal doc).asArr.getD []).all safeEntity

theorem mapME_ok {α β : Type} (f : α → Except Unit β) :
    ∀ l : List α, (∀ x ∈ l, ∃ r, f x = .ok r) → ∃ rs, mapME f l = .ok rs := by
  intro l
  induction l with
  | nil => intro _; exact ⟨[], rfl⟩
  | cons x xs ih =>
    intro h
    obtain ⟨r, hr⟩ := h x (List.mem_cons_self _ _)
    obtain ⟨rs, hrs⟩ := ih fun y hy => h y (List.mem_cons_of_mem _ hy)
    exact ⟨r :: rs, by simp [mapME, hr, hrs]⟩

theorem normProp_ok (p : JsVal) (hp : p.nullish = false) :
    normProp p = .ok (normEntityObj p
      (if (jsGet p "properties").asArr.isSome then jsGet p "properties"
        else .varr [])) := by
  simp [normProp, hp]

theorem normEntity_ok (e : JsVal) (he : safeEntity e = true) :
    ∃ r, normEntity e = .ok r := by
  unfold safeEntity at he
  rw [Bool.and_eq_true] at he
  obtain ⟨hnn', hprops⟩ := he
  have hnn : e.nullish = false := by simpa using hnn'
  cases harr : (jsGet e "properties").asArr with
  | none => exact ⟨normEntityObj e (.varr []), by simp [normEntity, hnn, harr]⟩
  | some ps =>
    rw [harr] at hprops
    have hall : ∀ p ∈ ps, p.nullish = false := by simpa using hprops
    obtain ⟨qs, hqs⟩ := mapME_ok normProp ps fun p hp =>
      ⟨_, normProp_ok p (hall p hp)⟩
    exact ⟨normEntityObj e (.varr qs),
      by simp [normEntity, hnn, harr, hqs, Except.map]⟩

theorem normEntity_shape (e r : JsVal) (hnn : e.nullish = false)
    (hok : normEntity e = .ok r) :
    ∃ props, r = normEntityObj e props ∧
      ((jsGet e "properties").asArr = none → props = .varr []) := by
  unfold normEntity at hok
  rw [hnn] at hok
  simp only [Bool.false_eq_true, if_false] at hok
  cases harr : (jsGet e "properties").asArr with
  | none =>
    rw [harr] at hok
    simp only [Except.ok.injEq] at hok
    exact ⟨.varr [], hok.symm, fun _ => rfl⟩
  | some ps =>
    rw [harr] at hok
    cases hm : mapME normProp ps with
    | error err =>
      simp only [hm, Except.map] at hok
      exact Except.noConfusion hok
    | ok qs =>
      simp only [hm, Except.map, Except.ok.injEq] at hok
      exact ⟨.varr qs, hok.symm, fun hc => Option.noConfusion hc⟩

/-- C5 counterexample: a null element inside the `entities` array makes
`normalizeEntities` throw a TypeError (`e.type` on null), so the normalizer is
not total on malformed input. -/
theorem C5_normalizeEntities_counterexample :
    normalizeEntities (.vobj [("entities", .varr [.vnull])]) = .error () := rfl

/-- C5 (amended): an absent or non-array `entities` field yields the empty
list; the normalizer raises no error on any document whose entities-array
elements (and their `properties`-array elements) are not null/undefined —
any other shape, including numbers, strings or objects of arbitrary fields,
is tolerated; a non-numeric or absent `confidence` is represented as null in
the output, never zero; and the entity `type` is passed through untouched
(modulo the `|| null` default) whatever string it holds.  Only a
null/undefined element of `entities` (or of a nested `properties` array)
makes the normalizer throw. -/
theorem C5_normalizeEntities_amended (doc e : JsVal) :
    ((entitiesVal doc).asArr = none → normalizeEntities doc = .ok []) ∧
    (safeDoc doc = true → ∃ out, normalizeEntities doc = .ok out) ∧
    (safeEntity e = true → ∃ r, normEntity e = .ok r) ∧
    (∀ r, e.nullish = false → normEntity e = .ok r →
      jsGet r "confidence" =
        (if (jsGet e "confidence").isNum then jsGet e "confidence" else .vnull) ∧
      jsGet r "type" = jsOrV (jsGet e "type") .vnull ∧
      ((jsGet e "properties").asArr = none → jsGet r "properties" = .varr [])) := by
  refine ⟨?_, ?_, normEntity_ok e, ?_⟩
  · intro h
    simp [normalizeEntities, h]
  · intro h
    unfold safeDoc at h
    cases harr : (entitiesVal doc).asArr with
    | none => exact ⟨[], by simp [normalizeEntities, harr]⟩
    | some es =>
      rw [harr] at h
      have hall : ∀ x ∈ es, safeEntity x = true :=
        List.all_eq_true.mp (by simpa using h)
      obtain ⟨rs, hrs⟩ := mapME_ok normEntity es fun x hx => normEntity_ok x (hall x hx)
      exact ⟨rs, by simp [normalizeEntities, harr, hrs]⟩
  · intro r hnn hok
    obtain ⟨props, rfl, hprops⟩ := normEntity_shape e r hnn hok
    refine ⟨?_, ?_, fun hc => ?_⟩
    · simp [normEntityObj, jsGet, jsObjGet]
    · simp [normEntityObj, jsGet, jsObjGet]
    · rw [hprops hc]
      simp [normEntityObj, jsGet, jsObjGet]

/-- Concrete instantiation of C5's amended guarantees: a non-array `entities`
yields the empty list; a safe document with a string-valued confidence and an
unrecognised type normalizes without error; and that entity's output
confidence is null. -/
theorem C5_normalizeEntities_amended_witness :
    normalizeEntities (.vobj [("entities", .vstr "nope")]) = .ok [] ∧
    (∃ out, normalizeEntities
      (.vobj [("entities", .varr [.vobj [("type", .vstr "custom_kind"),
        ("confidence", .vstr "high")]])]) = .ok out) ∧
    jsGet (normEntityObj
      (.vobj [("type", .vstr "custom_kind"), ("confidence", .vstr "high")])
      (.varr [])) "confidence" = .vnull :=
  ⟨(C5_normalizeEntities_amended (.vobj [("entities", .vstr "nope")]) .vnull).1 rfl,
    (C5_normalizeEntities_amended
      (.vobj [("entities", .varr [.vobj [("type", .vstr "custom_kind"),
        ("confidence", .vstr "high")]])]) .vnull).2.1 rfl,
    ((C5_normalizeEntities_amended .vnull
        (.vobj [("type", .vstr "custom_kind"), ("confidence", .vstr "high")])).2.2.2
      (normEntityObj
        (.vobj [("type", .vstr "custom_kind"), ("confidence", .vstr "high")])
        (.varr [])) rfl rfl).1⟩

/-- ASCII digit, the regex class `\d`. -/
def isDigit (c : Char) : Bool :=
  '0' ≤ c && c ≤ '9'

/-- The regex word class `\w` (ASCII only in JavaScript non-unicode mode). -/
def isWordChar (c : Char) : Bool :=
  ('a' ≤ c && c ≤ 'z') || ('A' ≤ c && c ≤ 'Z') || isDigit c || c = '_'

/-- Case folding used by the `/i` regex flag and `toLowerCase`, on the
alphabet the embedded patterns actually use: ASCII letters plus the Norwegian
'Å' appearing in `måler` and `å betale`.  Other non-ASCII letters are left
unchanged; no embedded pattern contains them. -/
def foldLower (c : Char) : Char :=
  if c = 'Å' then 'å'
  else if 'A' ≤ c && c ≤ 'Z' then Char.ofNat (c.toNat + 32)
  else c

/-- Case-insensitive prefix test: the first list, case-folded, is a prefix of
the second, case-folded. -/
def startsWithCI : List Char → List Char → Bool
  | [], _ => true
  | _ :: _, [] => false
  | w :: ws, c :: cs => (foldLower w = foldLower c) && startsWithCI ws cs

/-- Case-insensitive substring test, the `/i` regex without anchors. -/
def containsCIAux (w : List Char) : List Char → Bool
  | [] => startsWithCI w []
  | c :: cs => startsWithCI w (c :: cs) || containsCIAux w cs

def containsCI (w : String) (s : List Char) : Bool :=
  containsCIAux w.data s

/-- No word character starts the list (the `\b` boundary after a match, with
end-of-input counting as a boundary). -/
def headNonWord : List Char → Bool
  | [] => true
  | c :: _ => !isWordChar c

/-- Scan for a case-insensitive occurrence of `w` delimited by `\b` on both
sides; the flag records whether the previous character was a non-word
character (start of input counts).  Assumes `w` begins and ends with word
characters, true of the tokens `kWh` and `mnd` this models. -/
def hasWordCIAux (w : List Char) : List Char → Bool → Bool
  | [], _ => false
  | c :: cs, prevNonWord =>
    (prevNonWord && startsWithCI w (c :: cs) &&
        headNonWord ((c :: cs).drop w.length)) ||
      hasWordCIAux w cs (!isWordChar c)

def hasWordCI (w : String) (s : List Char) : Bool :=
  hasWordCIAux w.data s true

/-- The regex class `[\d.\s]` inside the amount pattern. -/
def amountClass (c : Char) : Bool :=
  isDigit c || c = '.' || isJsWs c

/-- The test `/(-?\d[\d.\s]*[,\.]\d{2})\s*$/.test(line)`
(src/unnamed/part_001:272).  Read from the right: optional whitespace, two
digits, a decimal separator, then — leftwards — a run of `[\d.\s]` reaching a
digit.  The leading `-?` is optional and so irrelevant to the existence of a
match; and since digits belong to `[\d.\s]`, a digit inside the maximal
class-run leftwards of the separator is exactly what the backtracking
`\d[\d.\s]*` requires. -/
def endsWithAmount (line : List Char) : Bool :=
  match line.reverse.dropWhile isJsWs with
  | d1 :: d2 :: sep :: rest =>
    isDigit d1 && isDigit d2 && (sep = ',' || sep = '.') &&
      (rest.takeWhile amountClass).any isDigit
  | _ => false

/-- The exclusion test
`/sum|totalt|å betale|mva|merverdiavgift|fakturadato|forfallsdato/i.test(line)`
(src/unnamed/part_001:277). -/
def hasExcludedKeyword (line : List Char) : Bool :=
  containsCI "sum" line || containsCI "totalt" line ||
  containsCI "å betale" line || containsCI "mva" line ||
  containsCI "merverdiavgift" line || containsCI "fakturadato" line ||
  containsCI "forfallsdato" line

/-- `replace(/\r\n/g, "\n")`: leftmost non-overlapping global replacement. -/
def replaceCrLf : List Char → List Char
  | [] => []
  | '\r' :: '\n' :: rest => '\n' :: replaceCrLf rest
  | c :: rest => c :: replaceCrLf rest

/-- Replacement of the non-breaking space U+00A0 by a plain space (`replace(/\u00A0/g, " ")`). -/
def replaceNbsp (s : List Char) : List Char :=
  s.map fun c => if c = '\u00A0' then ' ' else c

/-- `replace(/[ \t]+\n/g, "\n")`: a space or tab is dropped exactly when only
spaces/tabs separate it from a following newline, i.e. when the already
processed suffix begins with a newline. -/
def stripWsBeforeNl (s : List Char) : List Char :=
  s.foldr (fun c acc =>
    if (c = ' ' || c = '\t') && acc.head? = some '\n' then acc else c :: acc) []

/-- `replace(/\n{3,}/g, "\n\n")`: a newline is dropped exactly when two
newlines already follow it in the processed suffix. -/
def collapseNls (s : List Char) : List Char :=
  s.foldr (fun c acc =>
    if c = '\n' && acc.take 2 = ['\n', '\n'] then acc else c :: acc) []

/-- Embedding of `normalizeText` (src/unnamed/part_001:25-31); on a string
argument `String(t || "")` is the identity. -/
def normalizeText (t : String) : String :=
  ⟨collapseNls (stripWsBeforeNl (replaceNbsp (replaceCrLf t.data)))⟩

/-- `replace(/[ \t]+/g, " ")`: each maximal run of spaces/tabs becomes one
space; a space/tab is absorbed exactly when the processed suffix already
starts with the space its run collapsed to. -/
def collapseST (s : List Char) : List Char :=
  s.foldr (fun c acc =>
    if c = ' ' || c = '\t' then
      if acc.head? = some ' ' then acc else ' ' :: acc
    else c :: acc) []

/-- The string branch of `cleanSpaces` (src/unnamed/part_001:41-43). -/
def cleanSpacesStr (s : String) : String :=
  trimJS ⟨collapseST s.data⟩

/-- Embedding of `cleanSpaces` (src/unnamed/part_001:41-43): a falsy argument
yields null. -/
def cleanSpaces (s : Option String) : Option String :=
  match s with
  | none => none
  | some s => if s = "" then none else some (cleanSpacesStr s)

/-- Per-line acceptance test of `extractLineItems`
(src/unnamed/part_001:270-277): a quantity unit token (`\bkWh\b` or
`\bmnd\b`, case-insensitive), a trailing decimal amount, and no excluded
summary/tax/date keyword. -/
def keepLine (line : List Char) : Bool :=
  (hasWordCI "kWh" line || hasWordCI "mnd" line) && endsWithAmount line &&
    !hasExcludedKeyword line

/-- `String.prototype.split("\n")`. -/
def splitNl : List Char → List (List Char)
  | [] => [[]]
  | '\n' :: cs => [] :: splitNl cs
  | c :: cs =>
    match splitNl cs with
    | h :: t => (c :: h) :: t
    | [] => [[c]]

/-- `Array.from(new Set(items))`: drop an element exactly when it was already
seen, preserving first occurrences in order. -/
def dedupAux : List String → List String → List String
  | [], _ => []
  | x :: xs, seen =>
    if x ∈ seen then dedupAux xs seen else x :: dedupAux xs (x :: seen)

/-- Embedding of `extractLineItems` (src/unnamed/part_001:265-285): normalize,
split into trimmed non-empty lines, keep qualifying lines (space-collapsed),
de-duplicate. -/
def extractLineItems (text : String) : List String :=
  dedupAux
    ((((splitNl (normalizeText text).data).map fun l =>
        trimJS ⟨l⟩).filter fun l => decide (l ≠ "")).foldl
      (fun acc l => if keepLine l.data then acc ++ [cleanSpacesStr l] else acc)
      [])
    []

theorem dedupAux_nodup (l : List String) :
    ∀ seen, (dedupAux l seen).Nodup ∧ ∀ x ∈ dedupAux l seen, x ∉ seen := by
  induction l with
  | nil => intro seen; simp [dedupAux]
  | cons y ys ih =>
    intro seen
    by_cases hy : y ∈ seen
    · simpa [dedupAux, hy] using ih seen
    · obtain ⟨hnd, hni⟩ := ih (y :: seen)
      refine ⟨?_, ?_⟩
      · simp only [dedupAux, hy, if_false]
        exact List.nodup_cons.mpr
          ⟨fun hmem => (hni y hmem) (List.mem_cons_self _ _), hnd⟩
      · intro x hx
        simp only [dedupAux, hy, if_false] at hx
        rcases List.mem_cons.mp hx with rfl | hx'
        · exact hy
        · exact fun hxs => (hni x hx') (List.mem_cons_of_mem _ hxs)

theorem dedupAux_sublist (l : List String) :
    ∀ seen, (dedupAux l seen).Sublist l := by
  induction l with
  | nil => intro seen; simp [dedupAux]
  | cons y ys ih =>
    intro seen
    by_cases hy : y ∈ seen
    · simp only [dedupAux, hy, if_true]
      exact (ih seen).cons y
    · simp only [dedupAux, hy, if_false]
      exact (ih (y :: seen)).cons₂ y

theorem dedupAux_complete (l : List String) :
    ∀ seen, ∀ x ∈ l, x ∉ seen → x ∈ dedupAux l seen := by
  induction l with
  | nil => intro seen x hx; simp at hx
  | cons y ys ih =>
    intro seen x hx hxs
    by_cases hy : y ∈ seen
    · rcases List.mem_cons.mp hx with rfl | hx'
      · exact absurd hy hxs
      · simpa [dedupAux, hy] using ih seen x hx' hxs
    · simp only [dedupAux, hy, if_false]
      rcases List.mem_cons.mp hx with rfl | hx'
      · exact List.mem_cons_self _ _
      · by_cases hxy : x = y
        · subst hxy; exact List.mem_cons_self _ _
        · exact List.mem_cons_of_mem _
            (ih (y :: seen) x hx' (by simp [hxs, hxy]))

theorem dedupAux_congr (l : List String) :
    ∀ s₁ s₂, (∀ y, y ∈ s₁ ↔ y ∈ s₂) → dedupAux l s₁ = dedupAux l s₂ := by
  induction l with
  | nil => intro _ _ _; rfl
  | cons y ys ih =>
    intro s₁ s₂ h
    by_cases hy : y ∈ s₁
    · simp only [dedupAux, hy, (h y).mp hy, if_true]
      exact ih s₁ s₂ h
    · have hy₂ : y ∉ s₂ := fun hc => hy ((h y).mpr hc)
      simp only [dedupAux, hy, hy₂, if_false]
      refine congrArg _ (ih (y :: s₁) (y :: s₂) fun z => ?_)
      simp [h z]

theorem dedupAux_append (l₁ l₂ : List String) :
    ∀ seen, ∃ s', (∀ y, y ∈ s' ↔ y ∈ l₁ ∨ y ∈ seen) ∧
      dedupAux (l₁ ++ l₂) seen = dedupAux l₁ seen ++ dedupAux l₂ s' := by
  induction l₁ with
  | nil => intro seen; exact ⟨seen, by simp, by simp [dedupAux]⟩
  | cons y ys ih =>
    intro seen
    by_cases hy : y ∈ seen
    · obtain ⟨s', hs', heq⟩ := ih seen
      exact ⟨s', fun z => by
          constructor
          · intro hz
            rcases (hs' z).mp hz with h | h
            · exact Or.inl (List.mem_cons_of_mem _ h)
            · exact Or.inr h
          · intro hz
            rcases hz with h | h
            · rcases List.mem_cons.mp h with rfl | h'
              · exact (hs' z).mpr (Or.inr hy)
              · exact (hs' z).mpr (Or.inl h')
            · exact (hs' z).mpr (Or.inr h),
        by simp only [List.cons_append, dedupAux, hy, if_true]; exact heq⟩
    · obtain ⟨s', hs', heq⟩ := ih (y :: seen)
      refine ⟨s', fun z => ?_, ?_⟩
      · constructor
        · intro hz
          rcases (hs' z).mp hz with h | h
          · exact Or.inl (List.mem_cons_of_mem _ h)
          · rcases List.mem_cons.mp h with rfl | h'
            · exact Or.inl (List.mem_cons_self _ _)
            · exact Or.inr h'
        · intro hz
          rcases hz with h | h
          · rcases List.mem_cons.mp h with rfl | h'
            · exact (hs' z).mpr (Or.inr (List.mem_cons_self _ _))
            · exact (hs' z).mpr (Or.inl h')
          · exact (hs' z).mpr (Or.inr (List.mem_cons_of_mem _ h))
      · simp only [List.cons_append, dedupAux, hy, if_false]
        exact congrArg _ heq

theorem lineItems_foldl_eq (lines : List String) :
    ∀ acc, lines.foldl
        (fun acc l => if keepLine l.data then acc ++ [cleanSpacesStr l] else acc)
        acc =
      acc ++ ((lines.filter fun l => keepLine l.data).map cleanSpacesStr) := by
  induction lines with
  | nil => intro acc; simp
  | cons l ls ih =>
    intro acc
    by_cases hl : keepLine l.data
    · simp only [List.foldl_cons, hl, if_true, List.filter_cons, List.map_cons]
      rw [ih]
      simp [hl]
    · simp only [List.foldl_cons, hl, if_false, List.filter_cons]
      rw [ih]
      simp [hl]

/-- C7: the retained items are exactly the space-collapsed qualifying lines —
a normalized trimmed non-empty line qualifies iff it contains a quantity unit
token (`kWh` or the monthly token `mnd`) and ends in a decimal amount and
contains no summary/tax/date keyword — de-duplicated preserving first
occurrences (the result is a duplicate-free sublist containing every item, and
an item's first occurrence position is kept); in particular the line
`Spotpris 2517,29 kWh 79,4891 2.000,97` is retained while
`Totalt å betale 4.123,00` ends in a decimal amount yet is excluded because of
its keyword. -/
theorem C7_extractLineItems (text : String) :
    extractLineItems text =
      dedupAux (((((splitNl (normalizeText text).data).map fun l =>
          trimJS ⟨l⟩).filter fun l => decide (l ≠ "")).filter fun l =>
            keepLine l.data).map cleanSpacesStr) [] ∧
    (∀ items : List String, (dedupAux items []).Nodup ∧
      (dedupAux items []).Sublist items ∧
      (∀ x ∈ items, x ∈ dedupAux items []) ∧
      ∀ pre x post, items = pre ++ x :: post → x ∉ pre →
        ∃ tail, dedupAux items [] = dedupAux pre [] ++ x :: tail) ∧
    keepLine "Spotpris 2517,29 kWh 79,4891 2.000,97".data = true ∧
    (keepLine "Totalt å betale 4.123,00".data = false ∧
      endsWithAmount "Totalt å betale 4.123,00".data = true ∧
      hasExcludedKeyword "Totalt å betale 4.123,00".data = true) ∧
    extractLineItems
        "Spotpris 2517,29 kWh 79,4891 2.000,97\nTotalt å betale 4.123,00" =
      ["Spotpris 2517,29 kWh 79,4891 2.000,97"] := by
  refine ⟨?_, ?_, by decide, ⟨by decide, by decide, by decide⟩, by decide⟩
  · unfold extractLineItems
    rw [lineItems_foldl_eq]
    rfl
  · intro items
    refine ⟨(dedupAux_nodup items []).1, dedupAux_sublist items [],
      fun x hx => dedupAux_complete items [] x hx (by simp), ?_⟩
    intro pre x post hsplit hxpre
    obtain ⟨s', hs', heq⟩ := dedupAux_append pre (x :: post) []
    have hxs' : x ∉ s' := fun hc => by
      rcases (hs' x).mp hc with h | h
      · exact hxpre h
      · simp at h
    rw [hsplit, heq]
    exact ⟨dedupAux post (x :: s'), by simp [dedupAux, hxs']⟩

/-- Concrete instantiation of C7's first-occurrence guarantee: in
`["a", "b", "a"]` the first "a" is kept in place. -/
theorem C7_extractLineItems_witness :
    ∃ tail, dedupAux ["a", "b", "a"] [] = dedupAux [] [] ++ "a" :: tail :=
  ((C7_extractLineItems "").2.1 ["a", "b", "a"]).2.2.2 [] "a" ["b", "a"]
    rfl (by decide)

/-- A separator accepted by the day-month-year pattern: a dot, hyphen or slash. -/
def isDateSep (c : Char) : Bool :=
  c = '.' || c = '-' || c = '/'

/-- Four digits (`\d{4}`) at this position, with the remainder. -/
def takeYear : List Char → Option (List Char × List Char)
  | a :: b :: c :: d :: rest =>
    if isDigit a && isDigit b && isDigit c && isDigit d then
      some ([a, b, c, d], rest)
    else none
  | _ => none

/-- Match of `/(\d{4})-(\d{2})-(\d{2})/` at this position, rebuilt as the
source does from its three capture groups. -/
def isoAt : List Char → Option String
  | y1 :: y2 :: y3 :: y4 :: '-' :: m1 :: m2 :: '-' :: d1 :: d2 :: _ =>
    if [y1, y2, y3, y4, m1, m2, d1, d2].all isDigit then
      some ⟨[y1, y2, y3, y4, '-', m1, m2, '-', d1, d2]⟩
    else none
  | _ => none

/-- Leftmost match of the ISO pattern (unanchored `String.prototype.match`). -/
def findIso : List Char → Option String
  | [] => none
  | l@(_ :: rest) =>
    match isoAt l with
    | some r => some r
    | none => findIso rest

/-- Continuation of the day-month-year pattern: month group, separator, year.
The greedy `\d{1,2}` tries two digits first and backtracks to one if the rest
of the pattern fails. -/
def monthYearAt (l : List Char) : Option (String × String) :=
  (match l with
    | m1 :: m2 :: s1 :: rest =>
      if isDigit m1 && isDigit m2 && isDateSep s1 then
        (takeYear rest).map fun (yr : List Char × List Char) =>
          ((⟨[m1, m2]⟩ : String), (⟨yr.1⟩ : String))
      else none
    | _ => none).orElse fun _ =>
    match l with
    | m1 :: s1 :: rest =>
      if isDigit m1 && isDateSep s1 then
        (takeYear rest).map fun (yr : List Char × List Char) =>
          ((⟨[m1]⟩ : String), (⟨yr.1⟩ : String))
      else none
    | _ => none

/-- Match of the full day-month-year pattern at this position,
returning (day, month, year) captures; greedy two-digit day tried first. -/
def dmyAt (l : List Char) : Option (String × String × String) :=
  (match l with
    | d1 :: d2 :: s1 :: rest =>
      if isDigit d1 && isDigit d2 && isDateSep s1 then
        (monthYearAt rest).map fun (my : String × String) =>
          ((⟨[d1, d2]⟩ : String), my.1, my.2)
      else none
    | _ => none).orElse fun _ =>
    match l with
    | d1 :: s1 :: rest =>
      if isDigit d1 && isDateSep s1 then
        (monthYearAt rest).map fun (my : String × String) =>
          ((⟨[d1]⟩ : String), my.1, my.2)
      else none
    | _ => none

/-- Leftmost match of the day-month-year pattern. -/
def findDmy : List Char → Option (String × String × String)
  | [] => none
  | l@(_ :: rest) =>
    match dmyAt l with
    | some r => some r
    | none => findDmy rest

/-- `String.prototype.padStart(2, "0")`. -/
def padStart2 (s : String) : String :=
  if s.length ≥ 2 then s else ⟨List.replicate (2 - s.length) '0' ++ s.data⟩

/-- Embedding of `toIsoDate` (src/unnamed/part_001:62-76): a falsy argument is
null; a four-digit-dash ISO fragment anywhere in the string wins and is
returned as is; else a `D.M.YYYY` / `D/M/YYYY` / `D-M-YYYY` fragment is
rebuilt as `YYYY-MM-DD` with zero-padded day and month; else null. -/
def toIsoDate (s : Option String) : Option String :=
  match s with
  | none => none
  | some str =>
    if str = "" then none
    else
      match findIso str.data with
      | some ymd => some ymd
      | none =>
        match findDmy str.data with
        | some dmy => some (dmy.2.2 ++ "-" ++ padStart2 dmy.2.1 ++ "-" ++ padStart2 dmy.1)
        | none => none

/-- C8: the inputs "08.02.2026", "08/02/2026" and "2026-02-08" all normalize
to "2026-02-08", and a string in which neither date pattern matches anywhere
(including null and the empty string) normalizes to null. -/
theorem C8_toIsoDate :
    toIsoDate (some "08.02.2026") = some "2026-02-08" ∧
    toIsoDate (some "08/02/2026") = some "2026-02-08" ∧
    toIsoDate (some "2026-02-08") = some "2026-02-08" ∧
    toIsoDate none = none ∧
    ∀ s : String, findIso s.data = none → findDmy s.data = none →
      toIsoDate (some s) = none := by
  refine ⟨by decide, by decide, by decide, rfl, ?_⟩
  intro s h1 h2
  by_cases hs : s = ""
  · simp [toIsoDate, hs]
  · simp [toIsoDate, hs, h1, h2]

/-- Concrete instantiation of C8's no-pattern case: "hello" has no
recognizable date. -/
theorem C8_toIsoDate_witness :
    toIsoDate (some "hello") = none :=
  C8_toIsoDate.2.2.2.2 "hello" rfl rfl

/-- A backtracking regex fragment: from an input position it returns every
remainder a match of the fragment can leave, in regex priority order (greedy
quantifiers longest-first, alternatives left-to-right). -/
def RxM : Type := List Char → List (List Char)

/-- Consume a literal word case-insensitively. -/
def consumeCI : List Char → List Char → Option (List Char)
  | [], l => some l
  | _ :: _, [] => none
  | w :: ws, c :: cs =>
    if foldLower w = foldLower c then consumeCI ws cs else none

/-- Fragment: a case-insensitive literal. -/
def rxLit (w : String) : RxM := fun l =>
  match consumeCI w.data l with
  | some r => [r]
  | none => []

/-- Fragment sequencing, preserving priority order. -/
def rxSeq (a b : RxM) : RxM := fun l =>
  (a l).flatMap b

/-- Fragment alternation, left alternative first. -/
def rxAlt (a b : RxM) : RxM := fun l =>
  a l ++ b l

/-- Fragment `X?` for a one-character class: greedy, so the consuming branch
comes first. -/
def rxOptChar (p : Char → Bool) : RxM := fun l =>
  (match l with
    | c :: cs => if p c then [cs] else []
    | [] => []) ++ [l]

/-- Fragment `\s*`: greedy, longest consumption first. -/
def rxWsStar : RxM := fun l =>
  (List.range ((l.takeWhile isJsWs).length + 1)).map fun i =>
    l.drop ((l.takeWhile isJsWs).length - i)

/-- The character class `[0-9 \-]` inside the meter-number capture. -/
def capClass (c : Char) : Bool :=
  isDigit c || c = ' ' || c = '-'

/-- The capture group `([0-9][0-9 \-]{7,30})` ending each meter pattern:
greedy, and nothing follows it, so it takes at most 30 class characters after
the digit and needs at least 7. -/
def rxCapture (l : List Char) : Option (List Char) :=
  match l with
  | c :: cs =>
    if isDigit c then
      if ((cs.takeWhile capClass).take 30).length ≥ 7 then
        some (c :: (cs.takeWhile capClass).take 30)
      else none
    else none
  | [] => none

/-- A full pattern at one position: try the prefix fragment's remainders in
priority order, returning the first on which the capture succeeds — exactly
regex backtracking. -/
def rxRun (pre : RxM) (l : List Char) : Option (List Char) :=
  (pre l).findSome? rxCapture

/-- Leftmost match of a pattern ending in the meter-number capture. -/
def rxFind (pre : RxM) : List Char → Option (List Char)
  | [] => rxRun pre []
  | l@(_ :: rest) =>
    match rxRun pre l with
    | some cap => some cap
    | none => rxFind pre rest

/-- Pattern 1 of `extractMeterNumberFromText` (src/server.js:125), up to its
capture group. -/
def meterPat1 : RxM :=
  rxSeq (rxLit "måler")
    (rxSeq (rxAlt (rxLit "nummer") (rxLit "nr"))
      (rxSeq (rxOptChar fun c => c = '.')
        (rxSeq rxWsStar
          (rxSeq (rxOptChar fun c => c = ':' || c = '-') rxWsStar))))

/-- Pattern 2 of `extractMeterNumberFromText` (src/server.js:126), up to its
capture group. -/
def meterPat2 : RxM :=
  rxSeq (rxLit "måler")
    (rxSeq rxWsStar
      (rxSeq (rxLit "id")
        (rxSeq (rxOptChar fun c => c = '.')
          (rxSeq rxWsStar
            (rxSeq (rxOptChar fun c => c = ':' || c = '-') rxWsStar)))))

/-- Pattern 3 of `extractMeterNumberFromText` (src/server.js:128), up to its
capture group. -/
def meterPat3 : RxM :=
  rxSeq (rxLit "meter")
    (rxSeq rxWsStar
      (rxSeq (rxAlt (rxLit "number") (rxAlt (rxLit "no") (rxLit "id")))
        (rxSeq (rxOptChar fun c => c = '.')
          (rxSeq rxWsStar
            (rxSeq (rxOptChar fun c => c = ':' || c = '-') rxWsStar)))))

/-- `String(m[1]).replace(/[ \-]/g, "")` (src/server.js:134). -/
def cleanedCap (cap : List Char) : List Char :=
  cap.filter fun c => !(c = ' ' || c = '-')

/-- The pattern loop of `extractMeterNumberFromText` (src/server.js:131-138):
a pattern whose match has a non-empty capture returns its cleaned digits only
when at least 8 remain; otherwise the loop moves on to the next pattern. -/
def emnLoop : List RxM → List Char → Option String
  | [], _ => none
  | p :: ps, chars =>
    match rxFind p chars with
    | some cap =>
      if cap ≠ [] then
        if (cleanedCap cap).length ≥ 8 then some ⟨cleanedCap cap⟩
        else emnLoop ps chars
      else emnLoop ps chars
    | none => emnLoop ps chars

/-- Embedding of `extractMeterNumberFromText` (src/server.js:120-139). -/
def extractMeterNumberFromText (text : Option String) : Option String :=
  match text with
  | none => none
  | some t =>
    if t = "" then none
    else emnLoop [meterPat1, meterPat2, meterPat3] t.data

/-- Embedding of `firstMatch` (src/unnamed/part_001:33-39).  A pattern is
abstracted to the projection of `text.match(re)` onto its first capture group:
`none` when there is no match, `some c` for a match capturing `c` (possibly
empty — a falsy capture is skipped like a failed match); the loop observes
nothing else of the match object. -/
def firstMatch (text : String) : List (String → Option String) → Option String
  | [] => none
  | re :: rest =>
    match re text with
    | some c => if c ≠ "" then some (trimJS c) else firstMatch text rest
    | none => firstMatch text rest

/-- The demonstration text for C9: pattern 1 matches `målernr: 1` followed by
spaces (spaces belong to its capture class), but its cleaned capture is the
single digit 1; pattern 2 matches `måler id: 123456789` with 9 digits. -/
def meterDemoText : String := "målernr: 1        måler id: 123456789"

/-- C9 counterexample: on `meterDemoText` the first pattern matches with a
non-empty capture (the digit 1 and eight spaces), yet
`extractMeterNumberFromText` returns the later pattern's digits, and the
pattern list truncated after the first pattern yields null — so the first
pattern matching with a non-empty capture does not determine the result and
later patterns are tried. -/
theorem C9_firstMatch_counterexample :
    rxFind meterPat1 meterDemoText.data = some "1        ".data ∧
    emnLoop [meterPat1] meterDemoText.data = none ∧
    extractMeterNumberFromText (some meterDemoText) = some "123456789" := by
  refine ⟨by decide, by decide, by decide⟩

/-- A pattern that does not stop `firstMatch`: no match, or an empty capture. -/
def fmSkips (q : String → Option String) (text : String) : Prop :=
  q text = none ∨ q text = some ""

/-- A pattern that does not stop the `extractMeterNumberFromText` loop: no
match, an empty capture, or a capture with fewer than 8 cleaned digits. -/
def emnSkips (q : RxM) (chars : List Char) : Prop :=
  rxFind q chars = none ∨
    ∃ cap, rxFind q chars = some cap ∧
      (cap = [] ∨ (cleanedCap cap).length < 8)

/-- C9 (amended): for `firstMatch` the claim holds as stated — the first
pattern matching with a non-empty capture determines the result (its trimmed
capture) and later patterns are never consulted; `extractMeterNumberFromText`
additionally requires at least 8 digits after stripping spaces and hyphens
from the capture, and only a pattern passing that check determines the result
and cuts off the later patterns. -/
theorem C9_firstMatch_amended (text : String) (chars : List Char) :
    (∀ (ps₁ ps₂ : List (String → Option String)) (p : String → Option String)
      (c : String), (∀ q ∈ ps₁, fmSkips q text) → p text = some c → c ≠ "" →
      firstMatch text (ps₁ ++ p :: ps₂) = some (trimJS c) ∧
        firstMatch text (ps₁ ++ p :: ps₂) = firstMatch text (ps₁ ++ [p])) ∧
    (∀ (ps₁ ps₂ : List RxM) (p : RxM) (cap : List Char),
      (∀ q ∈ ps₁, emnSkips q chars) → rxFind p chars = some cap → cap ≠ [] →
      (cleanedCap cap).length ≥ 8 →
      emnLoop (ps₁ ++ p :: ps₂) chars = some ⟨cleanedCap cap⟩ ∧
        emnLoop (ps₁ ++ p :: ps₂) chars = emnLoop (ps₁ ++ [p]) chars) := by
  constructor
  · intro ps₁
    induction ps₁ with
    | nil =>
      intro ps₂ p c _ hp hc
      constructor <;> simp [firstMatch, hp, hc]
    | cons q qs ih =>
      intro ps₂ p c hsk hp hc
      have hq := hsk q (List.mem_cons_self _ _)
      obtain ⟨h1, h2⟩ :=
        ih ps₂ p c (fun r hr => hsk r (List.mem_cons_of_mem _ hr)) hp hc
      have hstep : ∀ tail, firstMatch text (q :: tail) = firstMatch text tail := by
        intro tail
        rcases hq with hq | hq <;> simp [firstMatch, hq]
      constructor
      · rw [List.cons_append, hstep, h1]
      · rw [List.cons_append, hstep, List.cons_append, hstep, h2]
  · intro ps₁
    induction ps₁ with
    | nil =>
      intro ps₂ p cap _ hp hcap hlen
      constructor <;> simp [emnLoop, hp, hcap, hlen]
    | cons q qs ih =>
      intro ps₂ p cap hsk hp hcap hlen
      have hq := hsk q (List.mem_cons_self _ _)
      obtain ⟨h1, h2⟩ :=
        ih ps₂ p cap (fun r hr => hsk r (List.mem_cons_of_mem _ hr)) hp hcap hlen
      have hstep : ∀ tail, emnLoop (q :: tail) chars = emnLoop tail chars := by
        intro tail
        rcases hq with hq | ⟨cap', hcap', hbad⟩
        · simp [emnLoop, hq]
        · rcases hbad with hnil | hshort
          · subst hnil
            simp [emnLoop, hcap']
          · have hlt : ¬ (cleanedCap cap').length ≥ 8 := by omega
            by_cases hne : cap' = []
            · subst hne
              simp [emnLoop, hcap']
            · simp [emnLoop, hcap', hne, hlt]
      constructor
      · rw [List.cons_append, hstep, h1]
      · rw [List.cons_append, hstep, List.cons_append, hstep, h2]

/-- Concrete instantiation of the amended C9: a skipped no-match pattern, then
a pattern capturing " 42 " whose trimmed capture "42" wins for `firstMatch`;
and on `meterDemoText` pattern 2's 9-digit capture wins after pattern 1 is
skipped for having too few digits. -/
theorem C9_firstMatch_amended_witness :
    firstMatch "x" [fun _ => none, fun _ => some " 42 ", fun _ => some "99"] =
      some "42" ∧
    emnLoop [meterPat1, meterPat2, meterPat3] meterDemoText.data =
      some "123456789" := by
  constructor
  · exact ((C9_firstMatch_amended "x" []).1 [fun _ => none]
      [fun _ => some "99"] (fun _ => some " 42 ") " 42 "
      (by intro q hq; simp at hq; subst hq; exact Or.inl rfl)
      rfl (by decide)).1
  · exact ((C9_firstMatch_amended "x" meterDemoText.data).2 [meterPat1]
      [meterPat3] meterPat2 "123456789".data
      (by
        intro q hq
        simp only [List.mem_singleton] at hq
        subst hq
        exact Or.inr ⟨"1        ".data, by decide, Or.inr (by decide)⟩)
      (by decide) (by decide) (by decide)).1

/-- Embedding of `entityText` (src/unnamed/part_001:96-102): a truthy object
`normalizedValue` with a string `text` yields that text trimmed; otherwise the
trimmed `mentionText` (defaulted to "") or null when that is empty.  JavaScript
arrays have `typeof "object"` but no string `text` property, so `nother`
correctly falls through with them. -/
def entityText (e : Option Entity) : Option String :=
  match e with
  | none => none
  | some e =>
    match e.normalizedValue with
    | some (NormVal.nobj (some s)) => some (trimJS s)
    | _ =>
      if trimJS ((e.mentionText).getD "") = "" then none
      else some (trimJS ((e.mentionText).getD ""))

/-- Case-sensitive prefix test on character lists. -/
def startsWithL : List Char → List Char → Bool
  | [], _ => true
  | _ :: _, [] => false
  | w :: ws, c :: cs => (w = c) && startsWithL ws cs

/-- Case-sensitive substring test, `String.prototype.includes`. -/
def containsL (w : List Char) : List Char → Bool
  | [] => startsWithL w []
  | c :: cs => startsWithL w (c :: cs) || containsL w cs

/-- `String.prototype.toLowerCase` on the alphabet the code manipulates. -/
def lowerStr (s : String) : List Char :=
  s.data.map foldLower

/-- Embedding of `cleanCurrency` (src/unnamed/part_001:52-60): null for a
falsy argument, otherwise `kr` whatever the lowercased string contains —
every branch, including the final default, returns `kr`. -/
def cleanCurrency (s : Option String) : Option String :=
  match s with
  | none => none
  | some s =>
    if s = "" then none
    else
      if containsL "kr".data (lowerStr s) then some "kr"
      else if containsL "nok".data (lowerStr s) then some "kr"
      else if containsL "sek".data (lowerStr s) then some "kr"
      else some "kr"

/-- One alternative of `/\b(NOK|SEK|DKK|kr)\b/i` at a position: the original
characters matched, with the trailing boundary checked. -/
def currencyAt (l : List Char) : Option (List Char) :=
  (["NOK", "SEK", "DKK", "kr"]).findSome? fun alt =>
    if startsWithCI alt.data l && headNonWord (l.drop alt.data.length) then
      some (l.take alt.data.length)
    else none

/-- Leftmost boundary-delimited currency token; the flag records whether the
previous character was a non-word character. -/
def findCurrencyTok : List Char → Bool → Option (List Char)
  | [], _ => none
  | c :: cs, prevNonWord =>
    match (if prevNonWord then currencyAt (c :: cs) else none) with
    | some cap => some cap
    | none => findCurrencyTok cs (!isWordChar c)

/-- The single pattern of `extractCurrency`'s text fallback
(src/unnamed/part_001:138), as a `firstMatch` matcher. -/
def currencyMatcher (text : String) : Option String :=
  (findCurrencyTok text.data true).map fun cap => (⟨cap⟩ : String)

/-- Embedding of `extractCurrency` (src/unnamed/part_001:132-141): the
document is represented by its entity list (absent entities behave as the
empty list inside `bestEntity`). -/
def extractCurrency (ents : List Entity) (text : String) : Option String :=
  match entityText (bestEntity ents "currency") with
  | some s =>
    if s ≠ "" then cleanCurrency (some s)
    else cleanCurrency (firstMatch text [currencyMatcher])
  | none => cleanCurrency (firstMatch text [currencyMatcher])

/-- The currency field of the `/process-invoice` response object
(src/unnamed/part_001:320): `extractCurrency(doc, text) || "kr"`. -/
def outCurrency (ents : List Entity) (text : String) : Option String :=
  jsOrS (extractCurrency ents text) (some "kr")

theorem cleanCurrency_some_ne (s : String) (hs : s ≠ "") :
    cleanCurrency (some s) = some "kr" := by
  have hdef : cleanCurrency (some s) =
      if s = "" then none
      else
        if containsL "kr".data (lowerStr s) then some "kr"
        else if containsL "nok".data (lowerStr s) then some "kr"
        else if containsL "sek".data (lowerStr s) then some "kr"
        else some "kr" := rfl
  rw [hdef, if_neg hs]
  split_ifs <;> rfl

theorem cleanCurrency_cases (o : Option String) :
    cleanCurrency o = none ∨ cleanCurrency o = some "kr" := by
  match o with
  | none => exact Or.inl rfl
  | some s =>
    by_cases hs : s = ""
    · subst hs
      exact Or.inl rfl
    · exact Or.inr (cleanCurrency_some_ne s hs)

/-- C10: `cleanCurrency` collapses every non-empty input string — whatever
currency it names — to the single token `kr`, and the `currency` field of the
`/process-invoice` response is never null: it is `kr` on every document and
text, the text fallback or the default making up for an absent extractor
value. -/
theorem C10_cleanCurrency (s : String) (ents : List Entity) (text : String) :
    (s ≠ "" → cleanCurrency (some s) = some "kr") ∧
    outCurrency ents text = some "kr" := by
  constructor
  · intro hs
    exact cleanCurrency_some_ne s hs
  · unfold outCurrency extractCurrency
    cases hET : entityText (bestEntity ents "currency") with
    | none =>
      rcases cleanCurrency_cases (firstMatch text [currencyMatcher]) with h | h <;>
        simp [h, jsOrS, strTruthy]
    | some s =>
      by_cases hs : s ≠ ""
      · rcases cleanCurrency_cases (some s) with h | h <;>
          simp [hs, h, jsOrS, strTruthy]
      · rcases cleanCurrency_cases (firstMatch text [currencyMatcher]) with h | h <;>
          simp [hs, h, jsOrS, strTruthy]

/-- Concrete instantiation of C10: the other-currency names "SEK" and "USD"
both clean to `kr`, and the response currency is `kr` on an empty document. -/
theorem C10_cleanCurrency_witness :
    cleanCurrency (some "SEK") = some "kr" ∧
    cleanCurrency (some "USD") = some "kr" ∧
    outCurrency [] "no currency here" = some "kr" :=
  ⟨(C10_cleanCurrency "SEK" [] "").1 (by decide),
    (C10_cleanCurrency "USD" [] "").1 (by decide),
    (C10_cleanCurrency "x" [] "no currency here").2⟩

end Docai
